import Mathlib

/-!
Shallow embedding of `src/coliemacs.py`: a two-screen (Title / Loop)
finite-state-machine driver for a small tcod typing toy.

Rendering (console clear/print/blit/flush) and the blocking input source are
external collaborators; we model the observable core:
  * `Game` keeps the two mutable game-state fields `loop_text` and
    `quit_count` (the console handles are out of scope).
  * `Event` is the tagged union of the two event kinds the handlers react to
    (`tcod.event.Quit` and `tcod.event.KeyDown` with its integer key symbol).
  * `dispatch` embeds the `ev_quit` / `ev_keydown` reaction methods of
    `TitleStateHandler` and `LoopStateHandler`; `handle` embeds
    `StateHandler.handle`, folding one batch of pending events.
  * `run_fsm` embeds the driver loop; the input source is modelled as a list
    of event batches (one batch per `tcod.event.wait()` call), and the
    draw+blit side effects of `on_enter_state` / `on_reenter_state` are
    recorded as a trace of `(state, hook)` pairs.  A missing handler-table
    key, which raises `KeyError` in Python, is `Except.error`.
  * `draw_loop_lines` embeds the text-wrapping loop of `draw_loop`, returning
    the list of printed lines.
-/

namespace Coliemacs

/-- `CONSOLE_WIDTH = 21` from the source. -/
def CONSOLE_WIDTH : Nat := 21

/-- `CONSOLE_HEIGHT = 12` from the source. -/
def CONSOLE_HEIGHT : Nat := 12

/-- The `State` enum: variants `TITLE` and `LOOP`. -/
inductive State where
  | TITLE
  | LOOP
deriving DecidableEq

/-- The mutable game state of the `Game` dataclass: `loop_text` (a string,
modelled as a list of characters) and `quit_count` (an integer starting at 0
and only ever incremented, modelled as `Nat`).  The two console handles are
rendering collaborators and out of scope. -/
structure Game where
  loop_text : List Char
  quit_count : Nat
deriving DecidableEq

/-- The input events the handlers react to: `tcod.event.Quit` and
`tcod.event.KeyDown` carrying its symbolic key code `sym` (a non-negative
SDL keycode, modelled as `Nat`). -/
inductive Event where
  | quit
  | keydown (sym : Nat)
deriving DecidableEq

/-- `tcod.event.K_ESCAPE` (SDL keycode of Escape). -/
def K_ESCAPE : Nat := 27

/-- `tcod.event.K_BACKSPACE` (SDL keycode of Backspace). -/
def K_BACKSPACE : Nat := 8

/-- `tcod.event.K_a` (SDL keycode of the letter a). -/
def K_a : Nat := 97

/-- `tcod.event.K_z` (SDL keycode of the letter z). -/
def K_z : Nat := 122

/-- A `StateHandler` instance: its mutable `next_state` field
(`Optional[State]`, `none` requesting program exit) and the shared `game`. -/
structure StateHandler where
  next_state : Option State
  game : Game
deriving DecidableEq

/-- The two handler classes registered in `main`'s handler table:
`TitleStateHandler` and `LoopStateHandler`.  The class decides which
reaction methods run when an event is dispatched. -/
inductive HClass where
  | title
  | loop
deriving DecidableEq

/-- `StateHandler.__init__` as called from `run_fsm`
(`handler = handler_class(state, game)`): `next_state` is initialized to the
current state, `game` to the shared game state. -/
def initHandler (s : State) (g : Game) : StateHandler :=
  { next_state := some s, game := g }

/-- One `self.dispatch(event)` call: routes the event to the handler class's
reaction method.
  * `TitleStateHandler.ev_quit`: `next_state = None`.
  * `TitleStateHandler.ev_keydown`: Escape sets `next_state = None`,
    any other key sets `next_state = State.LOOP`.
  * `LoopStateHandler.ev_keydown`: Escape increments `quit_count` and sets
    `next_state = None` when the count reaches exactly 10; Backspace drops
    the last character (`loop_text[0:-1]`); a code in the inclusive a–z
    range appends `chr(sym)`; anything else is ignored.
  * `LoopStateHandler.ev_quit`: `next_state = None`. -/
def dispatch (hc : HClass) (e : Event) (h : StateHandler) : StateHandler :=
  match hc, e with
  | HClass.title, Event.quit => { h with next_state := none }
  | HClass.title, Event.keydown sym =>
      if sym = K_ESCAPE then
        { h with next_state := none }
      else
        { h with next_state := some State.LOOP }
  | HClass.loop, Event.keydown sym =>
      if sym = K_ESCAPE then
        let g := { h.game with quit_count := h.game.quit_count + 1 }
        if g.quit_count = 10 then
          { h with game := g, next_state := none }
        else
          { h with game := g }
      else if sym = K_BACKSPACE then
        { h with game := { h.game with loop_text := h.game.loop_text.dropLast } }
      else if K_a ≤ sym ∧ sym ≤ K_z then
        { h with game := { h.game with loop_text := h.game.loop_text ++ [Char.ofNat sym] } }
      else
        h
  | HClass.loop, Event.quit => { h with next_state := none }

/-- The event-dispatch loop inside `StateHandler.handle`: fold one batch of
pending events through `dispatch`. -/
def dispatchAll (hc : HClass) (h : StateHandler) (events : List Event) : StateHandler :=
  events.foldl (fun a e => dispatch hc e a) h

/-- `StateHandler.handle`: dispatch the batch of pending events, then return
`(next_state, game)`. -/
def handle (hc : HClass) (h : StateHandler) (events : List Event) : Option State × Game :=
  ((dispatchAll hc h events).next_state, (dispatchAll hc h events).game)

/-- The draw hooks recorded by the driver: `on_enter_state` vs
`on_reenter_state` (both draw and blit; only which hook ran is observable
here). -/
inductive Hook where
  | enter
  | reenter
deriving DecidableEq

/-- `run_fsm`: loop while `state is not None`.  Look the state up in the
handler table (`Except.error` models the `KeyError` raised on a missing key,
before any handler is constructed or event processed), construct the handler
via `initHandler`, fire `on_reenter_state` when `state == last_state` and
`on_enter_state` otherwise, then let `handle` consume the next input batch.
The input source is the list of batches; when it is exhausted the program
would block in `tcod.event.wait()` forever, so the run stops after recording
that iteration's hook.  The result is the trace of `(state, hook)` pairs,
one per iteration reached. -/
def run_fsm (table : State → Option HClass) :
    Option State → Option State → Game → List (List Event) →
    Except State (List (State × Hook))
  | none, _, _, _ => Except.ok []
  | some s, last, g, batches =>
    match table s with
    | none => Except.error s
    | some hc =>
      let hook := if some s = last then Hook.reenter else Hook.enter
      match batches with
      | [] => Except.ok [(s, hook)]
      | b :: rest =>
        let r := handle hc (initHandler s g) b
        match run_fsm table r.1 (some s) r.2 rest with
        | Except.error e => Except.error e
        | Except.ok tr => Except.ok ((s, hook) :: tr)

/-- The handler table built in `main`:
`{State.TITLE: TitleStateHandler, State.LOOP: LoopStateHandler}`. -/
def my_state_handlers : State → Option HClass
  | State.TITLE => some HClass.title
  | State.LOOP => some HClass.loop

/-- The wrapping loop of `draw_loop`: for `i in range(0, len(text), w)` print
`text[i:i+w].upper()`.  Returns the printed lines, top to bottom.  `upper` is
modelled character-wise by `Char.toUpper`, which agrees with Python
`str.upper` on ASCII (and `chr(K_a)..chr(K_z)` is all `ev_keydown` ever
appends).  The source always calls this with `w = CONSOLE_WIDTH = 21`; for
`w = 0` (where Python `range` would raise `ValueError`, unreachable from the
source) we return `[]` to stay total. -/
def draw_loop_lines (text : List Char) (w : Nat) : List (List Char) :=
  if _h : text = [] ∨ w = 0 then []
  else (text.take w).map Char.toUpper :: draw_loop_lines (text.drop w) w
termination_by text.length
decreasing_by
  push_neg at _h
  simp only [List.length_drop]
  have hpos : 0 < text.length := List.length_pos.mpr _h.1
  omega

/-- `draw_loop` on a game: wrap `game.loop_text` at `CONSOLE_WIDTH`. -/
def draw_loop (g : Game) : List (List Char) :=
  draw_loop_lines g.loop_text CONSOLE_WIDTH

/-! ### Basic lemmas about event dispatch -/

theorem dispatchAll_nil (hc : HClass) (h : StateHandler) :
    dispatchAll hc h [] = h := rfl

theorem dispatchAll_append (hc : HClass) (h : StateHandler) (l1 l2 : List Event) :
    dispatchAll hc h (l1 ++ l2) = dispatchAll hc (dispatchAll hc h l1) l2 := by
  simp [dispatchAll, List.foldl_append]

theorem dispatchAll_cons (hc : HClass) (h : StateHandler) (e : Event) (l : List Event) :
    dispatchAll hc h (e :: l) = dispatchAll hc (dispatch hc e h) l := rfl

theorem handle_fst (hc : HClass) (h : StateHandler) (events : List Event) :
    (handle hc h events).1 = (dispatchAll hc h events).next_state := rfl

theorem handle_snd (hc : HClass) (h : StateHandler) (events : List Event) :
    (handle hc h events).2 = (dispatchAll hc h events).game := rfl

/-- Running `n` Escape key-downs through the Loop handler starting from
`quit_count = 0`: the count becomes `n` and the requested next state flips
to terminal exactly once `n` reaches 10. -/
theorem dispatchAll_replicate_escape (t : List Char) (n : Nat) :
    dispatchAll HClass.loop (initHandler State.LOOP ⟨t, 0⟩)
        (List.replicate n (Event.keydown K_ESCAPE)) =
      { next_state := if n < 10 then some State.LOOP else none,
        game := ⟨t, n⟩ } := by
  induction n with
  | zero => simp [dispatchAll, initHandler]
  | succ n ih =>
    rw [List.replicate_succ', dispatchAll_append, ih]
    show dispatch HClass.loop (Event.keydown K_ESCAPE) _ = _
    by_cases h10 : n + 1 = 10
    · simp [dispatch, h10]
    · simp [dispatch, h10]
      split_ifs <;> first | rfl | omega

/-- C1: in the Loop screen each Escape key-down increments `quit_count` by
exactly one; starting from `quit_count = 0`, a batch of exactly 9 Escape
key-downs (and no Quit) leaves the requested next state at the non-terminal
`State.LOOP`, and a batch of 10 makes it terminal (`none`). -/
theorem C1_loop_escape_counting :
    (∀ h : StateHandler,
        (dispatch HClass.loop (Event.keydown K_ESCAPE) h).game.quit_count =
          h.game.quit_count + 1) ∧
    ∀ t : List Char,
      (handle HClass.loop (initHandler State.LOOP ⟨t, 0⟩)
          (List.replicate 9 (Event.keydown K_ESCAPE))).1 = some State.LOOP ∧
      (handle HClass.loop (initHandler State.LOOP ⟨t, 0⟩)
          (List.replicate 10 (Event.keydown K_ESCAPE))).1 = none := by
  constructor
  · intro h
    simp only [dispatch, if_true, eq_self_iff_true]
    split <;> rfl
  · intro t
    constructor
    · rw [handle_fst, dispatchAll_replicate_escape]
      simp
    · rw [handle_fst, dispatchAll_replicate_escape]
      simp

/-- C2: in the Title screen, a KeyDown whose key is not Escape requests
`State.LOOP`; an Escape KeyDown or a Quit event requests the terminal state. -/
theorem C2_title_transitions :
    ∀ (h : StateHandler) (sym : Nat),
      (sym ≠ K_ESCAPE →
        (dispatch HClass.title (Event.keydown sym) h).next_state = some State.LOOP) ∧
      (dispatch HClass.title (Event.keydown K_ESCAPE) h).next_state = none ∧
      (dispatch HClass.title Event.quit h).next_state = none := by
  intro h sym
  refine ⟨fun hne => ?_, ?_, rfl⟩
  · simp [dispatch, hne]
  · simp [dispatch]

theorem C2_title_transitions_witness :
    (104 ≠ K_ESCAPE) ∧
    (dispatch HClass.title (Event.keydown 104)
        (initHandler State.TITLE ⟨[], 0⟩)).next_state = some State.LOOP :=
  ⟨by decide, (C2_title_transitions (initHandler State.TITLE ⟨[], 0⟩) 104).1 (by decide)⟩

/-- C10: the Title handler's reaction methods never touch the game state:
for every event, `loop_text` and `quit_count` are left unchanged (only
`next_state` is written). -/
theorem C10_title_game_unchanged :
    ∀ (e : Event) (h : StateHandler),
      (dispatch HClass.title e h).game = h.game := by
  intro e h
  cases e with
  | quit => rfl
  | keydown sym =>
    simp only [dispatch]
    split <;> rfl

/-- C5: the Loop handler's reaction is total with no error branch: Backspace
on an empty `loop_text` leaves the handler unchanged (so the text stays
empty), and a KeyDown whose code is neither Escape nor Backspace nor in the
inclusive a–z range leaves the whole handler (text, count and requested next
state) unchanged. -/
theorem C5_loop_noops :
    (∀ h : StateHandler, h.game.loop_text = [] →
        dispatch HClass.loop (Event.keydown K_BACKSPACE) h = h) ∧
    (∀ (h : StateHandler) (sym : Nat),
        sym ≠ K_ESCAPE → sym ≠ K_BACKSPACE → ¬(K_a ≤ sym ∧ sym ≤ K_z) →
        dispatch HClass.loop (Event.keydown sym) h = h) := by
  constructor
  · rintro ⟨ns, lt, qc⟩ hempty
    have hlt : lt = [] := hempty
    subst hlt
    rfl
  · intro h sym h1 h2 h3
    simp [dispatch, h1, h2, h3]

theorem C5_loop_noops_witness :
    ((initHandler State.LOOP ⟨[], 0⟩).game.loop_text = [] ∧
      dispatch HClass.loop (Event.keydown K_BACKSPACE) (initHandler State.LOOP ⟨[], 0⟩) =
        initHandler State.LOOP ⟨[], 0⟩) ∧
    ((13 ≠ K_ESCAPE ∧ 13 ≠ K_BACKSPACE ∧ ¬(K_a ≤ 13 ∧ 13 ≤ K_z)) ∧
      dispatch HClass.loop (Event.keydown 13) (initHandler State.LOOP ⟨['h'], 4⟩) =
        initHandler State.LOOP ⟨['h'], 4⟩) :=
  ⟨⟨rfl, C5_loop_noops.1 _ rfl⟩,
   ⟨⟨by decide, by decide, by decide⟩,
    C5_loop_noops.2 _ 13 (by decide) (by decide) (by decide)⟩⟩

/-- C9: the handler the driver constructs for a state `s` starts with
`next_state = some s`, and a batch of events none of which ever assigns
`next_state` leaves `handle`'s returned next state at `some s` (the FSM
stays in `s`). -/
theorem C9_default_stay :
    ∀ (hc : HClass) (s : State) (g : Game) (b : List Event),
      (initHandler s g).next_state = some s ∧
      ((∀ e ∈ b, ∀ h : StateHandler, (dispatch hc e h).next_state = h.next_state) →
        (handle hc (initHandler s g) b).1 = some s) := by
  intro hc s g b
  refine ⟨rfl, fun hp => ?_⟩
  rw [handle_fst]
  have key : ∀ (l : List Event) (h : StateHandler),
      (∀ e ∈ l, ∀ h2 : StateHandler, (dispatch hc e h2).next_state = h2.next_state) →
      (dispatchAll hc h l).next_state = h.next_state := by
    intro l
    induction l with
    | nil => intro h _; rfl
    | cons e l ih =>
      intro h hl
      rw [dispatchAll_cons,
        ih _ (fun e2 he2 => hl e2 (List.mem_cons_of_mem _ he2)),
        hl e (List.mem_cons_self _ _)]
  rw [key b _ hp]
  rfl

theorem C9_default_stay_witness :
    (∀ e ∈ [Event.keydown 97, Event.keydown K_BACKSPACE], ∀ h : StateHandler,
        (dispatch HClass.loop e h).next_state = h.next_state) ∧
    (handle HClass.loop (initHandler State.LOOP ⟨[], 0⟩)
        [Event.keydown 97, Event.keydown K_BACKSPACE]).1 = some State.LOOP := by
  have hp : ∀ e ∈ [Event.keydown 97, Event.keydown K_BACKSPACE], ∀ h : StateHandler,
      (dispatch HClass.loop e h).next_state = h.next_state := by
    intro e he h
    simp only [List.mem_cons, List.not_mem_nil, or_false] at he
    rcases he with rfl | rfl <;> rfl
  exact ⟨hp, (C9_default_stay HClass.loop State.LOOP ⟨[], 0⟩ _).2 hp⟩

/-- C4 as stated is false: `State.TITLE` is registered in the handler table,
yet the Title handler given the batch `[Quit, KeyDown 104]` — a batch
containing a Quit event — requests `State.LOOP`, not the terminal state,
because the later non-Escape KeyDown overwrites `next_state`. -/
theorem C4_counterexample :
    my_state_handlers State.TITLE = some HClass.title ∧
    (handle HClass.title (initHandler State.TITLE ⟨[], 0⟩)
        [Event.quit, Event.keydown 104]).1 = some State.LOOP :=
  ⟨rfl, rfl⟩

/-- C4 amended: for every state registered in the handler table, processing
a batch consisting of exactly one synthetic Quit event yields the terminal
next state, regardless of the prior `quit_count` or `loop_text`. -/
theorem C4_quit_terminal :
    ∀ (s : State) (hc : HClass), my_state_handlers s = some hc →
      ∀ g : Game, (handle hc (initHandler s g) [Event.quit]).1 = none := by
  intro s hc _hreg g
  cases hc <;> rfl

theorem C4_quit_terminal_witness :
    my_state_handlers State.TITLE = some HClass.title ∧
    (handle HClass.title (initHandler State.TITLE ⟨['a'], 5⟩) [Event.quit]).1 = none :=
  ⟨rfl, C4_quit_terminal State.TITLE HClass.title rfl ⟨['a'], 5⟩⟩

/-! ### Round trip: letters then backspaces -/

theorem dispatchAll_loop_letters (h : StateHandler) (syms : List Nat)
    (hs : ∀ sym ∈ syms, K_a ≤ sym ∧ sym ≤ K_z) :
    (dispatchAll HClass.loop h (syms.map Event.keydown)).game.loop_text =
      h.game.loop_text ++ syms.map Char.ofNat := by
  induction syms generalizing h with
  | nil => simp [dispatchAll]
  | cons a l ih =>
    have ha := hs a (List.mem_cons_self a l)
    have hl : ∀ sym ∈ l, K_a ≤ sym ∧ sym ≤ K_z :=
      fun sym hm => hs sym (List.mem_cons_of_mem _ hm)
    simp only [List.map_cons, dispatchAll_cons]
    rw [ih _ hl]
    have hne : a ≠ K_ESCAPE := by
      simp only [K_a, K_z] at ha; simp only [K_ESCAPE]; omega
    have hnb : a ≠ K_BACKSPACE := by
      simp only [K_a, K_z] at ha; simp only [K_BACKSPACE]; omega
    simp [dispatch, hne, hnb, ha]

theorem dispatchAll_loop_backspaces (h : StateHandler) (n : Nat) :
    (dispatchAll HClass.loop h
        (List.replicate n (Event.keydown K_BACKSPACE))).game.loop_text =
      List.dropLast^[n] h.game.loop_text := by
  induction n generalizing h with
  | zero => rfl
  | succ n ih =>
    rw [List.replicate_succ, dispatchAll_cons, ih]
    have hb : (dispatch HClass.loop (Event.keydown K_BACKSPACE) h).game.loop_text =
        h.game.loop_text.dropLast := rfl
    rw [hb, Function.iterate_succ_apply]

theorem iterate_dropLast_append (t : List Char) :
    ∀ l : List Char, List.dropLast^[l.length] (t ++ l) = t := by
  intro l
  induction l using List.reverseRecOn with
  | nil => simp
  | append_singleton l a ih =>
    have hlen : (l ++ [a]).length = l.length + 1 := by simp
    rw [hlen, Function.iterate_succ_apply, ← List.append_assoc, List.dropLast_concat]
    exact ih

/-- C6: for every initial `loop_text` and every sequence of KeyDown events
with codes in the inclusive a–z range, processing those key-downs followed
by the same number of Backspace key-downs through the Loop handler returns
`loop_text` to its initial value. -/
theorem C6_roundtrip :
    ∀ (h : StateHandler) (syms : List Nat),
      (∀ sym ∈ syms, K_a ≤ sym ∧ sym ≤ K_z) →
      (handle HClass.loop h
          (syms.map Event.keydown ++
            List.replicate syms.length (Event.keydown K_BACKSPACE))).2.loop_text =
        h.game.loop_text := by
  intro h syms hs
  rw [handle_snd, dispatchAll_append, dispatchAll_loop_backspaces,
    dispatchAll_loop_letters h syms hs]
  have hlen : (syms.map Char.ofNat).length = syms.length := List.length_map _ _
  rw [← hlen]
  exact iterate_dropLast_append _ _

theorem C6_roundtrip_witness :
    (∀ sym ∈ ([104, 105] : List Nat), K_a ≤ sym ∧ sym ≤ K_z) ∧
    (handle HClass.loop (initHandler State.LOOP ⟨['x'], 0⟩)
        (([104, 105] : List Nat).map Event.keydown ++
          List.replicate ([104, 105] : List Nat).length
            (Event.keydown K_BACKSPACE))).2.loop_text = ['x'] :=
  ⟨by decide, C6_roundtrip (initHandler State.LOOP ⟨['x'], 0⟩) [104, 105] (by decide)⟩

/-! ### Text wrapping in `draw_loop` -/

theorem draw_loop_lines_eq (text : List Char) (w : Nat) :
    draw_loop_lines text w =
      if text = [] ∨ w = 0 then []
      else (text.take w).map Char.toUpper :: draw_loop_lines (text.drop w) w := by
  rw [draw_loop_lines]
  split <;> simp_all

/-- The number of printed lines is `ceil(length / w)`, written as
`(length + w - 1) / w` over `Nat` (0 lines for empty text). -/
theorem draw_loop_lines_length (text : List Char) (w : Nat) (hw : 0 < w) :
    (draw_loop_lines text w).length = (text.length + w - 1) / w := by
  rw [draw_loop_lines_eq]
  by_cases ht : text = []
  · rw [if_pos (Or.inl ht), ht]
    simp [Nat.div_eq_of_lt (by omega : w - 1 < w)]
  · have hcond : ¬(text = [] ∨ w = 0) := by push_neg; exact ⟨ht, by omega⟩
    rw [if_neg hcond]
    simp only [List.length_cons]
    rw [draw_loop_lines_length (text.drop w) w hw]
    simp only [List.length_drop]
    have hL : 0 < text.length := List.length_pos.mpr ht
    rcases le_or_lt text.length w with hle | hlt
    · have h1 : text.length - w = 0 := by omega
      rw [h1]
      have h2 : (0 + w - 1) / w = 0 := Nat.div_eq_of_lt (by omega)
      rw [h2]
      have h3 : text.length + w - 1 = (text.length - 1) + w := by omega
      rw [h3, Nat.add_div_right _ hw, Nat.div_eq_of_lt (by omega)]
    · have h3 : text.length + w - 1 = (text.length - w + w - 1) + w := by omega
      rw [h3, Nat.add_div_right _ hw]
termination_by text.length
decreasing_by
  have hL : 0 < text.length := List.length_pos.mpr ht
  simp only [List.length_drop]
  omega

/-- Every printed line has length at most `w`. -/
theorem draw_loop_lines_width (text : List Char) (w : Nat) :
    ∀ l ∈ draw_loop_lines text w, l.length ≤ w := by
  rw [draw_loop_lines_eq]
  by_cases hc : text = [] ∨ w = 0
  · rw [if_pos hc]
    intro l hl
    exact absurd hl (List.not_mem_nil l)
  · rw [if_neg hc]
    intro l hl
    rcases List.mem_cons.mp hl with rfl | hmem
    · simp only [List.length_map, List.length_take]
      exact min_le_left _ _
    · exact draw_loop_lines_width (text.drop w) w l hmem
termination_by text.length
decreasing_by
  push_neg at hc
  have hL : 0 < text.length := List.length_pos.mpr hc.1
  simp only [List.length_drop]
  omega

/-- Concatenating the printed lines gives the uppercased text. -/
theorem draw_loop_lines_join (text : List Char) (w : Nat) (hw : 0 < w) :
    (draw_loop_lines text w).flatten = text.map Char.toUpper := by
  rw [draw_loop_lines_eq]
  by_cases ht : text = []
  · rw [if_pos (Or.inl ht), ht]
    rfl
  · have hcond : ¬(text = [] ∨ w = 0) := by push_neg; exact ⟨ht, by omega⟩
    rw [if_neg hcond, List.flatten_cons, draw_loop_lines_join (text.drop w) w hw,
      ← List.map_append, List.take_append_drop]
termination_by text.length
decreasing_by
  have hL : 0 < text.length := List.length_pos.mpr ht
  simp only [List.length_drop]
  omega

/-- C3: for text of length `L` wrapped at width `w > 0`, `draw_loop`'s
wrapping loop prints exactly `ceil(L/w)` lines (0 when `L = 0`), each of
length at most `w`, whose concatenation is the uppercased text. -/
theorem C3_draw_loop_wrapping :
    ∀ (text : List Char) (w : Nat), 0 < w →
      (draw_loop_lines text w).length = (text.length + w - 1) / w ∧
      (∀ l ∈ draw_loop_lines text w, l.length ≤ w) ∧
      (draw_loop_lines text w).flatten = text.map Char.toUpper := by
  intro text w hw
  exact ⟨draw_loop_lines_length text w hw, draw_loop_lines_width text w,
    draw_loop_lines_join text w hw⟩

theorem C3_draw_loop_wrapping_witness :
    (0 < 2) ∧
    ((draw_loop_lines ['h', 'e', 'l', 'l', 'o'] 2).length =
        (['h', 'e', 'l', 'l', 'o'].length + 2 - 1) / 2 ∧
      (∀ l ∈ draw_loop_lines ['h', 'e', 'l', 'l', 'o'] 2, l.length ≤ 2) ∧
      (draw_loop_lines ['h', 'e', 'l', 'l', 'o'] 2).flatten =
        ['h', 'e', 'l', 'l', 'o'].map Char.toUpper) :=
  ⟨by decide, C3_draw_loop_wrapping ['h', 'e', 'l', 'l', 'o'] 2 (by decide)⟩

/-! ### The FSM driver loop -/

theorem run_fsm_none (table : State → Option HClass) (last : Option State)
    (g : Game) (batches : List (List Event)) :
    run_fsm table none last g batches = Except.ok [] := by
  cases batches <;> rfl

theorem run_fsm_missing (table : State → Option HClass) (s : State)
    (last : Option State) (g : Game) (batches : List (List Event))
    (h : table s = none) :
    run_fsm table (some s) last g batches = Except.error s := by
  cases batches <;> simp [run_fsm, h]

theorem run_fsm_blocked (table : State → Option HClass) (s : State)
    (last : Option State) (g : Game) (hc : HClass) (h : table s = some hc) :
    run_fsm table (some s) last g [] =
      Except.ok [(s, if some s = last then Hook.reenter else Hook.enter)] := by
  simp [run_fsm, h]

theorem run_fsm_cons (table : State → Option HClass) (s : State)
    (last : Option State) (g : Game) (hc : HClass) (b : List Event)
    (rest : List (List Event)) (h : table s = some hc) :
    run_fsm table (some s) last g (b :: rest) =
      match run_fsm table (handle hc (initHandler s g) b).1 (some s)
          (handle hc (initHandler s g) b).2 rest with
      | Except.error e => Except.error e
      | Except.ok tr =>
          Except.ok ((s, if some s = last then Hook.reenter else Hook.enter) :: tr) := by
  simp [run_fsm, h]

/-- Trace invariant of the driver loop: the first recorded hook is
`reenter` exactly when the first state equals the incoming `last_state`,
and along the trace each iteration's hook is `reenter` exactly when its
state equals the state of the immediately preceding iteration. -/
theorem run_fsm_trace (table : State → Option HClass) :
    ∀ (batches : List (List Event)) (st last : Option State) (g : Game)
      (tr : List (State × Hook)),
      run_fsm table st last g batches = Except.ok tr →
      (∀ p ∈ tr.head?, (p.2 = Hook.reenter ↔ some p.1 = last)) ∧
      List.Chain' (fun p q => q.2 = Hook.reenter ↔ q.1 = p.1) tr := by
  intro batches
  induction batches with
  | nil =>
    intro st last g tr hok
    cases st with
    | none =>
      rw [run_fsm_none] at hok
      cases hok
      simp
    | some s =>
      cases hcs : table s with
      | none =>
        rw [run_fsm_missing table s last g _ hcs] at hok
        exact Except.noConfusion hok
      | some hc =>
        rw [run_fsm_blocked table s last g hc hcs] at hok
        cases hok
        constructor
        · intro p hp
          simp only [List.head?_cons, Option.mem_def, Option.some.injEq] at hp
          subst hp
          by_cases hl : some s = last
          · simp [hl]
          · simp [hl]
        · simp
  | cons b rest ih =>
    intro st last g tr hok
    cases st with
    | none =>
      rw [run_fsm_none] at hok
      cases hok
      simp
    | some s =>
      cases hcs : table s with
      | none =>
        rw [run_fsm_missing table s last g _ hcs] at hok
        exact Except.noConfusion hok
      | some hc =>
        rw [run_fsm_cons table s last g hc b rest hcs] at hok
        cases hrec : run_fsm table (handle hc (initHandler s g) b).1 (some s)
            (handle hc (initHandler s g) b).2 rest with
        | error e =>
          rw [hrec] at hok
          exact Except.noConfusion hok
        | ok tr2 =>
          rw [hrec] at hok
          cases hok
          obtain ⟨hhead, hchain⟩ := ih _ (some s) _ tr2 hrec
          constructor
          · intro p hp
            simp only [List.head?_cons, Option.mem_def, Option.some.injEq] at hp
            subst hp
            by_cases hl : some s = last
            · simp [hl]
            · simp [hl]
          · rw [List.chain'_cons']
            refine ⟨?_, hchain⟩
            intro q hq
            have hq2 := hhead q hq
            simpa using hq2

/-- C7: in every driver run (`last_state` starting at the `None` sentinel),
the first iteration fires the enter hook (never re-enter), and each later
iteration fires the re-enter hook exactly when its state equals the state
of the immediately preceding iteration. -/
theorem C7_enter_reenter :
    ∀ (table : State → Option HClass) (st : Option State) (g : Game)
      (batches : List (List Event)) (tr : List (State × Hook)),
      run_fsm table st none g batches = Except.ok tr →
      (∀ p ∈ tr.head?, p.2 = Hook.enter) ∧
      List.Chain' (fun p q => q.2 = Hook.reenter ↔ q.1 = p.1) tr := by
  intro table st g batches tr hok
  obtain ⟨hhead, hchain⟩ := run_fsm_trace table batches st none g tr hok
  refine ⟨?_, hchain⟩
  intro p hp
  have h2 := hhead p hp
  have hne : p.2 ≠ Hook.reenter := by
    intro hr
    exact Option.some_ne_none _ (h2.mp hr)
  cases hp2 : p.2 with
  | enter => rfl
  | reenter => exact absurd hp2 hne

theorem C7_enter_reenter_witness :
    (run_fsm my_state_handlers (some State.TITLE) none ⟨[], 0⟩
        [[Event.keydown 104], [Event.keydown 104]] =
      Except.ok [(State.TITLE, Hook.enter), (State.LOOP, Hook.enter),
        (State.LOOP, Hook.reenter)]) ∧
    ((∀ p ∈ ([(State.TITLE, Hook.enter), (State.LOOP, Hook.enter),
          (State.LOOP, Hook.reenter)] : List (State × Hook)).head?,
        p.2 = Hook.enter) ∧
      List.Chain' (fun p q => q.2 = Hook.reenter ↔ q.1 = p.1)
        [(State.TITLE, Hook.enter), (State.LOOP, Hook.enter),
          (State.LOOP, Hook.reenter)]) :=
  ⟨by rfl,
   C7_enter_reenter my_state_handlers (some State.TITLE) ⟨[], 0⟩
     [[Event.keydown 104], [Event.keydown 104]] _ (by rfl)⟩

/-- C8: when the current state is a non-terminal state missing from the
handler table, the driver iteration fails with the lookup error naming that
state — for every input whatsoever, so no handler is constructed and no
event is processed first. -/
theorem C8_missing_handler_fails_fast :
    ∀ (table : State → Option HClass) (s : State) (last : Option State)
      (g : Game) (batches : List (List Event)),
      table s = none →
      run_fsm table (some s) last g batches = Except.error s := by
  intro table s last g batches h
  exact run_fsm_missing table s last g batches h

theorem C8_missing_handler_fails_fast_witness :
    ((fun _ : State => (none : Option HClass)) State.TITLE = none) ∧
    run_fsm (fun _ => none) (some State.TITLE) none ⟨[], 0⟩ [[Event.quit]] =
      Except.error State.TITLE :=
  ⟨rfl,
   C8_missing_handler_fails_fast (fun _ => none) State.TITLE none ⟨[], 0⟩
     [[Event.quit]] rfl⟩

end Coliemacs
